import Mathlib

/-!
Shallow embedding of `sutils/primitives.py` (the `sutils` toolbox) and proofs
about it.

The file models, from the source:
* `qlist.get` — out-of-range-safe indexed read;
* `qdict` — attribute dictionary: `__getattr__`, `copy`, `__add__`, `update`
  (all four merge modes);
* `weakproperty` — weak-reference-backed property descriptor;
* `cachedproperty` — lazily-cached property descriptor;
* `PrettyObject` — `get_pretty_fields` and `__repr__`.

Modelling conventions: Python values that matter to the `qdict` merge logic are
a recursive type `PyVal` (non-dict values are opaque atoms); a Python `dict` is
an association list of string keys (keys are unique in any state Python can
build; theorems that need this carry a `Nodup` hypothesis); a raised Python
exception is `Except.error`; the absent/`None` marker is `Option.none`.
Attribute backing slots of the property descriptors are explicit state values
threaded through the operations.
-/

set_option maxHeartbeats 1000000

namespace Sutils

/-- Model of `qlist.get(self, index, default)`: returns `default` when `index < 0` or
`index >= len(self)`, else the element at `index`.  The function is total, so
it never raises for out-of-range input. -/
def qlist_get {α : Type} (s : List α) (index : Int) (default : α) : α :=
  if h : index < 0 ∨ (s.length : Int) ≤ index then default
  else s.get ⟨index.toNat, by omega⟩

/-! ## cachedproperty

The backing slot `getattr(self, varname, None)` is modelled as
`Option (Option α)`: `none` is "attribute absent", `some none` is "attribute
present and holds Python `None`", `some (some v)` is a cached value `v`.
The wrapped function `func(self, *args, **kwargs)` is modelled as
`f : Nat → Option α` mapping the invocation counter to the value it returns
(`none` models returning Python `None`); the states carry the number of
invocations made so far so that invocation counts can be stated. -/

/-- Getter of `cachedproperty`: read the backing slot with default `None`; if
the value read is `None`, invoke the wrapped function, store and return its
result; otherwise return the stored value without invoking anything.  Returns
`(value returned, new backing slot, new invocation count)`. -/
def cp_get {α : Type} (f : Nat → Option α) (b : Option (Option α)) (c : Nat) :
    Option α × Option (Option α) × Nat :=
  match b.getD none with
  | some v => (some v, b, c)
  | none => (f c, some (f c), c + 1)

/-- Setter of `cachedproperty`: `setattr(self, varname, value)` unconditionally
overwrites the backing slot. -/
def cp_set {α : Type} (v : Option α) (_b : Option (Option α)) : Option (Option α) :=
  some v

/-- Deleter of `cachedproperty`: `setattr(self, varname, None)` stores `None`
in the backing slot. -/
def cp_del {α : Type} (_b : Option (Option α)) : Option (Option α) :=
  some none

/-- Run of `n` consecutive reads of a cached property, returning the final backing
slot and the final invocation count. -/
def cp_reads {α : Type} (f : Nat → Option α) :
    Option (Option α) → Nat → Nat → Option (Option α) × Nat
  | b, c, 0 => (b, c)
  | b, c, n + 1 =>
    let r := cp_get f b c
    cp_reads f r.2.1 r.2.2 n

/-! ## weakproperty

The backing slot `getattr(self, "_" + name, None)` holds either nothing, the
stored `None`, or a `weakref.ref`.  Liveness of a weak reference is external
state (the garbage collector), modelled by the `alive` flag; `wp_reclaim`
models the referent being reclaimed. -/

/-- Backing slot of a `weakproperty`. -/
inductive WPBack (α : Type) where
  | absent
  | storedNone
  | ref (alive : Bool) (referent : α)

/-- Getter of `weakproperty`: `value() if isinstance(value, weakref.ref) else
value`.  Reading a dead reference yields `None`; the function is total, so a
reclaimed referent never raises. -/
def wp_get {α : Type} : WPBack α → Option α
  | .absent => none
  | .storedNone => none
  | .ref true r => some r
  | .ref false _ => none

/-- Setter of `weakproperty`: store `weakref.ref(value)` for a non-`None`
value, else store `None`; then call the decorated function with
`(self, value)` as a change hook.  Returns the new backing slot and the value
passed to the hook. -/
def wp_set {α : Type} (v : Option α) (_st : WPBack α) : WPBack α × Option α :=
  match v with
  | some r => (.ref true r, some r)
  | none => (.storedNone, none)

/-- External reclamation of the referent: a stored weak reference goes dead. -/
def wp_reclaim {α : Type} : WPBack α → WPBack α
  | .ref _ r => .ref false r
  | st => st

/-! ## qdict data model -/

/-- Python values as seen by the `qdict` merge logic: `prim` is an opaque
non-dict value (the atom `0` is falsy, every other atom truthy), `dict` is a
dictionary with a flag telling whether it is a `qdict` (`true`) or a plain
`dict` (`false`). -/
inductive PyVal where
  | prim (atom : Nat)
  | dict (isQdict : Bool) (entries : List (String × PyVal))

/-- Entry list of a Python dictionary. -/
abbrev PyEntries := List (String × PyVal)

/-- Key lookup in a dictionary, `d[k]` / `d.get(k)`. -/
def alookup : PyEntries → String → Option PyVal
  | [], _ => none
  | (k, v) :: t, key => if k = key then some v else alookup t key

/-- Key assignment `d[k] = v`: overwrite in place when the key exists, append
otherwise. -/
def aset : PyEntries → String → PyVal → PyEntries
  | [], key, v => [(key, v)]
  | (k, w) :: t, key, v => if k = key then (k, v) :: t else (k, w) :: aset t key v

/-- The key list of a dictionary. -/
def akeys (l : PyEntries) : List String := l.map Prod.fst

/-- Plain `dict.update(source)` with a dict argument: merge-overwrite every
entry of `s` into `d`. -/
def dictUpdate (d s : PyEntries) : PyEntries :=
  s.foldl (fun acc kv => aset acc kv.1 kv.2) d

mutual
/-- Size of a `PyVal`, used as the termination measure of the recursive
`update` paths. -/
def pysize : PyVal → Nat
  | .prim _ => 1
  | .dict _ l => 1 + sizeEntries l
/-- Summed size of the entries of a dictionary. -/
def sizeEntries : PyEntries → Nat
  | [] => 0
  | kv :: t => 1 + pysize kv.2 + sizeEntries t
end

/-- Conversion `qdict(nv)` applied to a value known to be a dict: wrap its entries as a
`qdict`; other values are untouched (the conversion is only applied after an
`isinstance(nv, dict)` check). -/
def toQdict : PyVal → PyVal
  | .dict _ l => .dict true l
  | v => v

/-- Python truthiness for the modelled values: a dict is truthy iff nonempty,
the atom `0` models a falsy non-dict value. -/
def pyTruthy : PyVal → Bool
  | .prim n => n != 0
  | .dict _ l => !l.isEmpty

theorem pysize_toQdict (v : PyVal) : pysize (toQdict v) = pysize v := by
  cases v <;> rfl

theorem sizeEntries_alookup {s : PyEntries} {k : String} {v : PyVal}
    (h : alookup s k = some v) : pysize v < sizeEntries s := by
  induction s with
  | nil => simp [alookup] at h
  | cons kv t ih =>
    obtain ⟨k0, v0⟩ := kv
    rw [alookup] at h
    split at h
    · cases h
      simp [sizeEntries]
      omega
    · have := ih h
      simp [sizeEntries]
      omega

theorem pysize_pos (v : PyVal) : 0 < pysize v := by
  cases v <;> simp [pysize]

/-! ## qdict.update

`qdict.update(source, recursive, add_keys, convert_to_qdict)` first checks
`isinstance(source, dict)` (no-op otherwise) and then branches on
`recursive`/`add_keys`.  The two recursive modes never cross: the recursive
re-entries `cv.update(nv, ...)` pass the same `recursive`/`add_keys` flags, so
each mode is embedded as its own recursive function (`qdUpdateRecAdd`,
`qdUpdateRecNoAdd`) together with its iteration loop, and the dispatcher
`qdUpdate` mirrors the branch structure of the source.

In the `recursive, not add_keys` mode, `cv.update(nv)` on a plain-dict value
`cv` raises `TypeError` when `nv` is not a mapping, hence the `Except`; the
additive recursive mode and both non-recursive modes never raise. -/

mutual
/-- Re-entry `cv.update(nv, recursive=True, add_keys=True, convert_to_qdict=convert)`
on a `qdict` value: the `isinstance(source, dict)` guard followed by the
additive recursive loop. -/
def qdUpdateRecAdd (d : PyEntries) (src : PyVal) (convert : Bool) : PyEntries :=
  match src with
  | .prim _ => d
  | .dict _ s => updAddLoop d s convert
termination_by 3 * pysize src + 1
decreasing_by
  simp only [pysize]
  omega

/-- Body of `for k, nv in source.iteritems()` in the `recursive, add_keys`
mode: optionally convert a dict value to a `qdict`, then merge recursively
into an existing `qdict` value, merge plainly into an existing plain-dict
value when the new value is also a dict, and overwrite otherwise. -/
def updAddStep (acc : PyEntries) (k : String) (nv0 : PyVal) (convert : Bool) :
    PyEntries :=
  let nv := if convert then toQdict nv0 else nv0
  match alookup acc k with
  | some (.dict true cvE) => aset acc k (.dict true (qdUpdateRecAdd cvE nv convert))
  | some (.dict false cvE) =>
    match nv with
    | .dict _ nvE => aset acc k (.dict false (dictUpdate cvE nvE))
    | _ => aset acc k nv
  | some (.prim _) => aset acc k nv
  | none => aset acc k nv
termination_by 3 * pysize nv0 + 2
decreasing_by
  have h := pysize_toQdict nv0
  split <;> omega

/-- The `recursive, add_keys` loop over the entries of `source`. -/
def updAddLoop (acc : PyEntries) (s : PyEntries) (convert : Bool) : PyEntries :=
  match s with
  | [] => acc
  | (k, nv0) :: t => updAddLoop (updAddStep acc k nv0 convert) t convert
termination_by 3 * sizeEntries s
decreasing_by
  · simp only [sizeEntries]
    have := pysize_pos nv0
    omega
  · simp only [sizeEntries]
    have := pysize_pos nv0
    omega
end

mutual
/-- Re-entry `cv.update(nv, recursive=True, add_keys=False)` on a `qdict`
value (`convert_to_qdict` is not forwarded in this mode and defaults to
`False`): the `isinstance(source, dict)` guard followed by the non-additive
recursive loop. -/
def qdUpdateRecNoAdd (d : PyEntries) (src : PyVal) : Except String PyEntries :=
  match src with
  | .prim _ => .ok d
  | .dict _ s => updNoAddLoop d s
termination_by (3 * pysize src + 1, 0)
decreasing_by
  apply Prod.Lex.left
  simp only [pysize]
  omega

/-- The `recursive, not add_keys` loop `for k, cv in self.iteritems()`: skip
keys absent from `source`; for a `qdict` value recurse in the same mode; for a
plain-dict value call plain `dict.update(nv)`, which raises `TypeError` when
`nv` is not a mapping; otherwise overwrite with `source`'s value.  An error
propagates out of the loop (the partial in-place mutation Python would leave
behind is not observable once the exception escapes `update`). -/
def updNoAddLoop (entries : PyEntries) (s : PyEntries) : Except String PyEntries :=
  match entries with
  | [] => .ok []
  | (k, cv) :: t =>
    match h : alookup s k with
    | none =>
      match updNoAddLoop t s with
      | .error e => .error e
      | .ok r => .ok ((k, cv) :: r)
    | some nv =>
      match cv with
      | .dict true cvE =>
        match qdUpdateRecNoAdd cvE nv with
        | .error e => .error e
        | .ok m =>
          match updNoAddLoop t s with
          | .error e => .error e
          | .ok r => .ok ((k, .dict true m) :: r)
      | .dict false cvE =>
        match nv with
        | .dict _ nvE =>
          match updNoAddLoop t s with
          | .error e => .error e
          | .ok r => .ok ((k, .dict false (dictUpdate cvE nvE)) :: r)
        | .prim _ => .error "TypeError: plain dict updated with a non-mapping"
      | .prim _ =>
        match updNoAddLoop t s with
        | .error e => .error e
        | .ok r => .ok ((k, nv) :: r)
termination_by (3 * sizeEntries s, entries.length + 1)
decreasing_by
  all_goals first
  | · apply Prod.Lex.left
      have := sizeEntries_alookup h
      omega
  | · apply Prod.Lex.right
      simp only [List.length_cons]
      omega
end

/-- Model of `qdict.update(source, recursive, add_keys, convert_to_qdict)`: the
`isinstance(source, dict)` no-op guard, then the four merge modes.  The
non-recursive additive mode is plain `dict.update`; the non-recursive
non-additive mode refreshes only the keys already present, via
`self[k] = source.get(k, self[k])`.  Returns the new entry list of `self`
(the source mutates `self` in place and returns `self`). -/
def qdUpdate (d : PyEntries) (src : PyVal) (recursive addKeys convert : Bool) :
    Except String PyEntries :=
  match src with
  | .prim _ => .ok d
  | .dict _ s =>
    if recursive then
      if addKeys then .ok (updAddLoop d s convert)
      else updNoAddLoop d s
    else
      if addKeys then .ok (dictUpdate d s)
      else .ok (d.map fun kv => (kv.1, (alookup s kv.1).getD kv.2))

/-- Model of `qdict.copy(add=None)`: build a fresh `qdict`, merge `self` into it
non-recursively and additively, then merge `add` in additively when `add` is
truthy. -/
def qdict_copy (d : PyEntries) (add : Option PyVal) : Except String PyEntries := do
  let res ← qdUpdate [] (.dict true d) false true false
  match add with
  | some a => if pyTruthy a then qdUpdate res a false true false else .ok res
  | none => .ok res

/-- Model of `qdict.__add__(other)`: `self.copy()` followed by an additive
non-recursive merge of `other`, producing a new mapping. -/
def qdict_add (d : PyEntries) (other : PyVal) : Except String PyEntries := do
  let res ← qdict_copy d none
  qdUpdate res other false true false

/-! ## qdict attribute access

`qdict.__getattr__` is only invoked by Python after normal attribute lookup
fails.  A `qdict` instance has an empty instance `__dict__` (its `__setattr__`
writes into the mapping instead), so normal lookup succeeds exactly on the
attributes of the class (the methods defined by `qdict` itself and the ones
inherited from `dict`/`object`).  For any other name, `__getattr__` raises
`AttributeError(key)` when the key is absent and returns `self[key]`
otherwise. -/

/-- Attribute names resolvable on a `qdict` instance by normal lookup: the
methods defined in the source (`__init__`, `__getattr__`, `__setattr__`,
`copy`, `__add__`, `update`) and representative methods inherited from the
built-in `dict` type. -/
def qdictClassAttrNames : List String :=
  ["__init__", "__getattr__", "__setattr__", "copy", "__add__", "update",
   "get", "keys", "values", "items", "iteritems", "iterkeys", "itervalues",
   "has_key", "pop", "popitem", "clear", "setdefault", "fromkeys"]

/-- Result of an attribute read `obj.key` on a `qdict` instance. -/
inductive AttrRead where
  | classAttr (name : String)
  | entry (v : PyVal)
  | attrError (name : String)

/-- Attribute read `d.key` on a `qdict` instance: class attributes win (normal
lookup succeeds before `__getattr__` is consulted); otherwise `__getattr__`
returns the mapping entry or raises `AttributeError(key)`. -/
def qdictGetattr (d : PyEntries) (key : String) : AttrRead :=
  if key ∈ qdictClassAttrNames then .classAttr key
  else
    match alookup d key with
    | some v => .entry v
    | none => .attrError key

/-! ## PrettyObject

`get_pretty_fields` discovers the field list (`__pretty_fields__`, falling
back to `__slots__`), builds the template `"name1={name1}, name2={name2}"`
and caches it in the class attribute `__pretty_field_format__`; `__repr__`
splices the formatted field values into the default representation before its
closing `>`.  Field lists are `Option (List String)` (`none` = attribute not
set); the class cache is `PFCache`.  `str.format`/`str.join` are modelled at
the character level (`pyFormatAux`, `pyJoin`). -/

/-- Outcome of `repr(getattr(self, name, self._na))` for one declared field:
`ok s` — the attribute was read and its `repr` is `s`; `raises e` — the read
or its `repr` raised the exception `e` (which the source catches and displays
in place of the value); `absent` — the attribute is missing, so `getattr`
returns the `_na` sentinel whose `repr` is the placeholder `"??"`. -/
inductive FieldOutcome where
  | ok (s : String)
  | raises (e : String)
  | absent

/-- The `repr` string of the `_na` placeholder sentinel. -/
def na_repr : String := "??"

/-- The string displayed for one field in the representation: the inner
`try`/`except` of `__repr__`. -/
def fieldDisplay (access : String → FieldOutcome) (name : String) : String :=
  match access name with
  | .ok s => s
  | .raises e => e
  | .absent => na_repr

/-- State of the class attribute `__pretty_field_format__`: not yet set, set
to `False`, or set to a template string. -/
inductive PFCache where
  | absent
  | boolFalse
  | str (s : String)

/-- Python `str.join`: the call `', '.join(pieces)`. -/
def pyJoin (sep : String) : List String → String
  | [] => ""
  | [x] => x
  | x :: y :: t => x ++ sep ++ pyJoin sep (y :: t)

/-- The format template `'", ".join("{0}={{{0}}}".format(n) for n in fields)`:
each field `n` contributes the piece `n={n}` (braces written as escapes). -/
def gpfTemplate (fields : List String) : String :=
  pyJoin ", " (fields.map fun n => n ++ "=\x7b" ++ n ++ "\x7d")

/-- Truthiness of an optional field list (`None` and `[]` are falsy). -/
def optFieldsTruthy : Option (List String) → Bool
  | some l => !l.isEmpty
  | none => false

/-- Recomputation path of `get_pretty_fields`: discover the field list
(`__pretty_fields__` when truthy, else `__slots__`), then build the template.
When neither is discoverable the source first stores `False` in the cache and
then unconditionally evaluates `', '.join(... for n in fields)` with `fields`
being `None`, which raises `TypeError` — the assignment of the `False` marker
is dead code.  With an empty (but present) field list the transient `False`
is overwritten by the empty template `""`. -/
def gpfRecompute (pfields slots : Option (List String)) :
    Except String String × PFCache :=
  let fields := if optFieldsTruthy pfields then pfields else slots
  match fields with
  | none => (.error "TypeError: NoneType object is not iterable", .boolFalse)
  | some l => (.ok (gpfTemplate l), .str (gpfTemplate l))

/-- Model of `PrettyObject.get_pretty_fields()`: return the cached template when the
cache holds a truthy value, else recompute.  Returns the result (or the raised
exception) together with the new cache state. -/
def get_pretty_fields (cache : PFCache) (pfields slots : Option (List String)) :
    Except String String × PFCache :=
  match cache with
  | .str s => if s.isEmpty then gpfRecompute pfields slots else (.ok s, .str s)
  | _ => gpfRecompute pfields slots

/-- Opening brace character (written as an escape). -/
def obrace : Char := '\x7b'

/-- Closing brace character (written as an escape). -/
def cbrace : Char := '\x7d'

/-- Scan a format string up to the closing brace of a placeholder, returning
the field name and the remainder; `none` when the placeholder is
unterminated. -/
def splitAtBrace : List Char → Option (List Char × List Char)
  | [] => none
  | c :: t =>
    if c = cbrace then some ([], t)
    else (splitAtBrace t).map fun p => (c :: p.1, p.2)

theorem splitAtBrace_length {l : List Char} {p : List Char × List Char}
    (h : splitAtBrace l = some p) : p.2.length < l.length := by
  induction l generalizing p with
  | nil => simp [splitAtBrace] at h
  | cons c t ih =>
    rw [splitAtBrace] at h
    split at h
    · cases h
      simp
    · match h2 : splitAtBrace t with
      | none => rw [h2] at h; simp at h
      | some q =>
        rw [h2] at h
        cases h
        have := ih h2
        simp
        omega

/-- Character-level model of Python `str.format(**context)` restricted to the
templates the source builds: literal text is copied, `{{`/`}}` escapes produce
literal braces, a lone closing brace raises `ValueError`, and a placeholder
`{name}` is replaced by `context[name]` (raising `KeyError` when the name is
not a context key).  Format specifications, conversions and attribute/index
access inside placeholders are not modelled; `simpleFieldName` below excludes
the names that would trigger them. -/
def pyFormatAux (ctx : String → Option String) : List Char → Except String (List Char)
  | [] => .ok []
  | c :: t =>
    if c = obrace then
      if t.head? = some obrace then
        match pyFormatAux ctx t.tail with
        | .error e => .error e
        | .ok out => .ok (obrace :: out)
      else
        match _h : splitAtBrace t with
        | none => .error "ValueError: expected closing brace in format string"
        | some p =>
          match ctx (String.mk p.1) with
          | none => .error "KeyError: unknown field name in format string"
          | some v =>
            match pyFormatAux ctx p.2 with
            | .error e => .error e
            | .ok out => .ok (v.toList ++ out)
    else if c = cbrace then
      if t.head? = some cbrace then
        match pyFormatAux ctx t.tail with
        | .error e => .error e
        | .ok out => .ok (cbrace :: out)
      else .error "ValueError: single closing brace in format string"
    else
      match pyFormatAux ctx t with
      | .error e => .error e
      | .ok out => .ok (c :: out)
termination_by l => l.length
decreasing_by
  · simp only [List.length_cons]
    have := List.length_tail t
    omega
  · have := splitAtBrace_length _h
    simp only [List.length_cons]
    omega
  · simp only [List.length_cons]
    have := List.length_tail t
    omega
  · simp only [List.length_cons]
    omega

/-- Python `template.format(**context)` on strings. -/
def pyFormat (template : String) (ctx : String → Option String) :
    Except String String :=
  match pyFormatAux ctx template.toList with
  | .error e => .error e
  | .ok out => .ok (String.mk out)

/-- The context dictionary `{name: displayed value for name in fields}` built
by `__repr__`. -/
def reprContext (fields : List String) (access : String → FieldOutcome) :
    String → Option String :=
  fun n => if n ∈ fields then some (fieldDisplay access n) else none

/-- Field names for which the `str.format` model above agrees with Python:
no braces (placeholder delimiters), no `:`/`!` (format spec and conversion
markers) and no `.`/`[` (attribute and index access).  Every Python
identifier — the intended content of a field list — satisfies this. -/
def simpleFieldName (n : String) : Bool :=
  n.toList.all fun c =>
    c != obrace && c != cbrace && c != ':' && c != '!' && c != '.' && c != '['

/-- Model of `PrettyObject.__repr__`: starting from the default representation `base`,
discover the field list (`__pretty_fields__` unless it is `None`, else
`__slots__`); when the list is truthy, build the per-field context and splice
`get_pretty_fields().format(**context)` right before the closing `>` of
`base`.  Returns the representation string or a raised exception. -/
def PrettyObject_repr (base : String) (cache : PFCache)
    (pfields slots : Option (List String)) (access : String → FieldOutcome) :
    Except String String :=
  let fields := match pfields with
    | some l => some l
    | none => slots
  match fields with
  | none => .ok base
  | some l =>
    if l.isEmpty then .ok base
    else
      match (get_pretty_fields cache pfields slots).1 with
      | .error e => .error e
      | .ok template =>
        match pyFormat template (reprContext l access) with
        | .error e => .error e
        | .ok formatted =>
          .ok (base.dropRight 1 ++ " " ++ formatted ++ ">")

/-! ## Theorems -/

theorem cp_reads_cached {α : Type} (f : Nat → Option α) (v : α) (c : Nat) :
    ∀ n, cp_reads f (some (some v)) c n = (some (some v), c) := by
  intro n
  induction n with
  | zero => rfl
  | succ m ih => simpa [cp_reads, cp_get] using ih

theorem cp_reads_once {α : Type} (f : Nat → Option α) (hf : ∀ i, (f i).isSome)
    (b : Option (Option α)) (hb : b.getD none = none) (c : Nat) {n : Nat}
    (hn : 1 ≤ n) : (cp_reads f b c n).2 = c + 1 := by
  cases n with
  | zero => omega
  | succ m =>
    obtain ⟨v, hv⟩ := Option.isSome_iff_exists.mp (hf c)
    simp only [cp_reads, cp_get, hb, hv]
    rw [cp_reads_cached]

theorem cp_reads_none {α : Type} (f : Nat → Option α) (hf : ∀ i, f i = none) :
    ∀ (n : Nat) (b : Option (Option α)) (c : Nat), b.getD none = none →
      (cp_reads f b c n).2 = c + n := by
  intro n
  induction n with
  | zero => intro b c _; rfl
  | succ m ih =>
    intro b c hb
    simp only [cp_reads, cp_get, hb, hf c]
    rw [ih (some none) (c + 1) rfl]
    omega

/-- C2: for a cached property whose wrapped computation never returns the
absent marker (`None`), any positive number of consecutive reads on a fresh
instance invokes the wrapped function exactly once, and after an explicit
delete/reset the next reads invoke it exactly one more time; a computation
that always returns the absent marker is re-invoked on every read. -/
theorem cachedproperty_invocation_count {α : Type} (f : Nat → Option α)
    (n : Nat) (hn : 1 ≤ n) :
    ((∀ i, (f i).isSome) →
      (cp_reads f none 0 n).2 = 1 ∧
      ∀ b c, (cp_reads f (cp_del b) c n).2 = c + 1) ∧
    ((∀ i, f i = none) → (cp_reads f none 0 n).2 = n) := by
  refine ⟨fun hf => ⟨?_, fun b c => ?_⟩, fun hf => ?_⟩
  · exact cp_reads_once f hf none rfl 0 hn
  · exact cp_reads_once f hf (cp_del b) rfl c hn
  · simpa using cp_reads_none f hf n none 0 rfl

/-- Witness for C2 at concrete inputs: a computation returning `5` is invoked
once across three reads of a fresh slot, and a computation returning `None`
is invoked on each of three reads. -/
theorem cachedproperty_invocation_count_witness :
    (cp_reads (fun _ => some (5 : Nat)) none 0 3).2 = 1 ∧
    (cp_reads (fun _ => (none : Option Nat)) none 0 3).2 = 3 :=
  ⟨((cachedproperty_invocation_count (fun _ => some (5 : Nat)) 3 (by decide)).1
      (fun _ => rfl)).1,
    (cachedproperty_invocation_count (fun _ => (none : Option Nat)) 3
      (by decide)).2 (fun _ => rfl)⟩

/-- C10: explicitly writing the absent marker (`None`) to a cached property
stores exactly the state the deleter stores, and the next read invokes the
wrapped computation again — a write does not always bypass recomputation. -/
theorem cachedproperty_set_none_is_reset {α : Type} (f : Nat → Option α)
    (b : Option (Option α)) (c : Nat) :
    cp_set none b = cp_del b ∧ (cp_get f (cp_set none b) c).2.2 = c + 1 :=
  ⟨rfl, rfl⟩

/-- C3: after `obj.prop = referent` on a weak property, a read returns the
referent while it is alive; after the referent is reclaimed, a read returns
the absent value (`wp_get` is total, so no error is raised). -/
theorem weakproperty_read_live_and_reclaimed {α : Type} (r : α) (st : WPBack α) :
    wp_get (wp_set (some r) st).1 = some r ∧
    wp_get (wp_reclaim (wp_set (some r) st).1) = none :=
  ⟨rfl, rfl⟩

/-- C9: `qlist.get(i, default)` returns the element at `i` exactly when
`0 <= i < len(s)` and `default` exactly otherwise (in particular for negative
`i`); being a total function it never raises for out-of-range input. -/
theorem qlist_get_spec {α : Type} (s : List α) (i : Int) (d : α) :
    (0 ≤ i ∧ i < (s.length : Int) → qlist_get s i d = s.getD i.toNat d) ∧
    (¬(0 ≤ i ∧ i < (s.length : Int)) → qlist_get s i d = d) := by
  constructor
  · intro h
    have hlt : i.toNat < s.length := by omega
    rw [qlist_get, dif_neg (by omega)]
    simp [List.getD_eq_getElem?_getD, List.getElem?_eq_getElem hlt,
      List.get_eq_getElem]
  · intro h
    rw [qlist_get, dif_pos (by omega)]

/-- Witness for C9 at concrete inputs: an in-range read returns the element,
a negative index returns the default. -/
theorem qlist_get_spec_witness :
    qlist_get [10, 20, 30] 1 0 = [10, 20, 30].getD ((1 : Int)).toNat 0 ∧
    qlist_get [10, 20, 30] (-2) 7 = 7 :=
  ⟨(qlist_get_spec [10, 20, 30] 1 0).1 (by decide),
   (qlist_get_spec [10, 20, 30] (-2) 7).2 (by decide)⟩

/-- Counterexample for C1 as stated: on an empty `qdict`, the key `"copy"` is
not a present key, yet reading the attribute `copy` does not raise
`AttributeError`: normal lookup finds the class method `copy` before
`__getattr__` is ever consulted. -/
theorem qdict_getattr_classattr_counterexample :
    qdictGetattr [] "copy" = AttrRead.classAttr "copy" ∧
    ¬ qdictGetattr [] "copy" = AttrRead.attrError "copy" := by
  constructor
  · simp [qdictGetattr, qdictClassAttrNames]
  · simp [qdictGetattr, qdictClassAttrNames]

/-- C1 (amended): for every key that is not an attribute of the `qdict` class,
reading the attribute is equivalent to item lookup — it returns the mapping
entry when the key is present and raises `AttributeError` when it is absent.
Keys that collide with class attributes (such as `copy` or `update`) resolve
to the class attribute instead, whether or not they are mapping entries. -/
theorem qdict_getattr_item_equiv (d : PyEntries) (key : String)
    (h : key ∉ qdictClassAttrNames) :
    (∀ v, alookup d key = some v → qdictGetattr d key = AttrRead.entry v) ∧
    (alookup d key = none → qdictGetattr d key = AttrRead.attrError key) := by
  unfold qdictGetattr
  rw [if_neg h]
  constructor
  · intro v hv
    rw [hv]
  · intro hv
    rw [hv]

/-- Witness for C1's amended theorem at concrete inputs: the key `"a"` is not
a class attribute; it reads back as the stored entry when present and raises
`AttributeError` when absent. -/
theorem qdict_getattr_item_equiv_witness :
    qdictGetattr [("a", PyVal.prim 7)] "a" = AttrRead.entry (PyVal.prim 7) ∧
    qdictGetattr [] "a" = AttrRead.attrError "a" :=
  ⟨(qdict_getattr_item_equiv [("a", PyVal.prim 7)] "a"
      (by simp [qdictClassAttrNames])).1 (PyVal.prim 7) rfl,
   (qdict_getattr_item_equiv [] "a" (by simp [qdictClassAttrNames])).2 rfl⟩

theorem alookup_map_refresh (d s : PyEntries) (k : String) :
    alookup (d.map fun kv => (kv.1, (alookup s kv.1).getD kv.2)) k =
      (alookup d k).map fun v => (alookup s k).getD v := by
  induction d with
  | nil => simp [alookup]
  | cons kv t ih =>
    obtain ⟨k0, v0⟩ := kv
    simp only [List.map_cons, alookup]
    by_cases hk : k0 = k
    · subst hk
      simp
    · simp [hk, ih]

/-- C6: the non-recursive, non-additive `update(source, recursive=False,
add_keys=False)` never introduces a key absent from the target: the key list
is unchanged, keys present in the target are refreshed from `source` (and left
alone when `source` lacks them), keys absent from the target stay absent, and
the mutated target is returned (`Except.ok`). -/
theorem qdict_update_noadd_no_new_keys (d s : PyEntries) (b : Bool) :
    ∃ r, qdUpdate d (.dict b s) false false false = .ok r ∧
      akeys r = akeys d ∧
      (∀ k v, alookup d k = some v → alookup r k = some ((alookup s k).getD v)) ∧
      (∀ k, alookup d k = none → alookup r k = none) := by
  refine ⟨d.map fun kv => (kv.1, (alookup s kv.1).getD kv.2), by rfl, ?_, ?_, ?_⟩
  · simp [akeys, List.map_map, Function.comp]
  · intro k v hv
    rw [alookup_map_refresh, hv]
    rfl
  · intro k hv
    rw [alookup_map_refresh, hv]
    rfl

/-- Witness for C6 at concrete inputs: a key present in both sides is
refreshed from the source, and a key only in the source is not added. -/
theorem qdict_update_noadd_no_new_keys_witness :
    alookup [("a", PyVal.prim 5)] "a" =
      some ((alookup [("a", PyVal.prim 5), ("c", PyVal.prim 9)] "a").getD
        (PyVal.prim 1)) ∧
    alookup [("a", PyVal.prim 5)] "c" = none := by
  obtain ⟨r, h1, hk, hp, ha⟩ := qdict_update_noadd_no_new_keys
    [("a", PyVal.prim 1)] [("a", PyVal.prim 5), ("c", PyVal.prim 9)] false
  have h2 : qdUpdate [("a", PyVal.prim 1)]
      (.dict false [("a", PyVal.prim 5), ("c", PyVal.prim 9)]) false false false =
      .ok [("a", PyVal.prim 5)] := rfl
  rw [h1] at h2
  have hr : r = [("a", PyVal.prim 5)] := Except.ok.inj h2
  subst hr
  exact ⟨hp "a" (PyVal.prim 1) rfl, ha "c" rfl⟩

theorem alookup_aset_self (l : PyEntries) (k : String) (v : PyVal) :
    alookup (aset l k v) k = some v := by
  induction l with
  | nil => simp [aset, alookup]
  | cons kv t ih =>
    obtain ⟨k0, v0⟩ := kv
    simp only [aset]
    by_cases hk : k0 = k
    · simp [hk, alookup]
    · simp [hk, alookup, ih]

theorem alookup_aset_other {k k2 : String} (h : k2 ≠ k) (l : PyEntries)
    (v : PyVal) : alookup (aset l k2 v) k = alookup l k := by
  induction l with
  | nil => simp [aset, alookup, h]
  | cons kv t ih =>
    obtain ⟨k0, v0⟩ := kv
    simp only [aset]
    by_cases hk : k0 = k2
    · subst hk
      simp [alookup, h]
    · simp only [hk, if_false, alookup]
      by_cases hk0 : k0 = k
      · simp [hk0]
      · simp [hk0, ih]

theorem alookup_eq_none_of_notin {s : PyEntries} {k : String}
    (h : k ∉ akeys s) : alookup s k = none := by
  induction s with
  | nil => rfl
  | cons kv t ih =>
    obtain ⟨k0, v0⟩ := kv
    simp only [akeys, List.map_cons, List.mem_cons, not_or] at h
    have h2 : k ∉ akeys t := h.2
    have h1 : ¬ k0 = k := fun hh => h.1 hh.symm
    simp [alookup, h1, ih h2]

theorem alookup_dictUpdate {s : PyEntries} (hs : (akeys s).Nodup)
    (acc : PyEntries) (k : String) :
    alookup (dictUpdate acc s) k =
      (alookup s k).orElse fun _ => alookup acc k := by
  induction s generalizing acc with
  | nil => simp [dictUpdate, alookup, Option.orElse]
  | cons kv t ih =>
    obtain ⟨k0, v0⟩ := kv
    simp only [akeys, List.map_cons, List.nodup_cons] at hs
    have hstep : dictUpdate acc ((k0, v0) :: t) = dictUpdate (aset acc k0 v0) t := rfl
    rw [hstep, ih hs.2]
    by_cases hk : k0 = k
    · subst hk
      rw [alookup_eq_none_of_notin hs.1, alookup_aset_self]
      simp [alookup, Option.orElse]
    · rw [alookup_aset_other hk]
      simp [alookup, hk]

/-- C8: `d1 + d2` builds a fresh mapping (`d1.copy()` merged additively with
`d2`): its entries are `d1`'s entries overwritten by `d2`'s entries.  The
embedding is purely functional, so the operands `d1` and `d2` themselves are
unchanged by construction. -/
theorem qdict_add_entries (d1 d2 : PyEntries)
    (h1 : (akeys d1).Nodup) (h2 : (akeys d2).Nodup) :
    qdict_add d1 (.dict true d2) = .ok (dictUpdate (dictUpdate [] d1) d2) ∧
    ∀ k, alookup (dictUpdate (dictUpdate [] d1) d2) k =
      (alookup d2 k).orElse fun _ => alookup d1 k := by
  constructor
  · rfl
  · intro k
    rw [alookup_dictUpdate h2, alookup_dictUpdate h1]
    cases alookup d2 k <;> cases alookup d1 k <;> simp [alookup, Option.orElse]

/-- Witness for C8 at concrete inputs: in the sum, a key of both operands
takes `d2`'s value and a key only in `d1` keeps `d1`'s value. -/
theorem qdict_add_entries_witness :
    alookup (dictUpdate (dictUpdate [] [("a", PyVal.prim 1), ("b", PyVal.prim 2)])
        [("b", PyVal.prim 9)]) "b" =
      ((alookup [("b", PyVal.prim 9)] "b").orElse fun _ =>
        alookup [("a", PyVal.prim 1), ("b", PyVal.prim 2)] "b") ∧
    alookup (dictUpdate (dictUpdate [] [("a", PyVal.prim 1), ("b", PyVal.prim 2)])
        [("b", PyVal.prim 9)]) "a" =
      ((alookup [("b", PyVal.prim 9)] "a").orElse fun _ =>
        alookup [("a", PyVal.prim 1), ("b", PyVal.prim 2)] "a") :=
  ⟨(qdict_add_entries [("a", PyVal.prim 1), ("b", PyVal.prim 2)]
      [("b", PyVal.prim 9)] (by decide) (by decide)).2 "b",
   (qdict_add_entries [("a", PyVal.prim 1), ("b", PyVal.prim 2)]
      [("b", PyVal.prim 9)] (by decide) (by decide)).2 "a"⟩

theorem updAddLoop_nil (acc : PyEntries) (c : Bool) :
    updAddLoop acc [] c = acc := by
  simp [updAddLoop]

theorem updAddLoop_cons (acc : PyEntries) (k : String) (nv0 : PyVal)
    (t : PyEntries) (c : Bool) :
    updAddLoop acc ((k, nv0) :: t) c = updAddLoop (updAddStep acc k nv0 c) t c := by
  simp [updAddLoop]

theorem updAddLoop_append (acc : PyEntries) (s1 s2 : PyEntries) (c : Bool) :
    updAddLoop acc (s1 ++ s2) c = updAddLoop (updAddLoop acc s1 c) s2 c := by
  induction s1 generalizing acc with
  | nil => rw [List.nil_append, updAddLoop_nil]
  | cons kv t ih =>
    obtain ⟨k, nv0⟩ := kv
    rw [List.cons_append, updAddLoop_cons, updAddLoop_cons]
    exact ih _

theorem updAddStep_lookup_other {k0 k : String} (h : k0 ≠ k) (acc : PyEntries)
    (nv0 : PyVal) (c : Bool) :
    alookup (updAddStep acc k0 nv0 c) k = alookup acc k := by
  simp only [updAddStep]
  split
  · exact alookup_aset_other h _ _
  · split
    · exact alookup_aset_other h _ _
    · exact alookup_aset_other h _ _
  · exact alookup_aset_other h _ _
  · exact alookup_aset_other h _ _

theorem updAddLoop_lookup_notin {k : String} {s : PyEntries}
    (hk : k ∉ akeys s) (acc : PyEntries) (c : Bool) :
    alookup (updAddLoop acc s c) k = alookup acc k := by
  induction s generalizing acc with
  | nil => rw [updAddLoop_nil]
  | cons kv t ih =>
    obtain ⟨k0, nv0⟩ := kv
    simp only [akeys, List.map_cons, List.mem_cons, not_or] at hk
    have h2 : k ∉ akeys t := hk.2
    rw [updAddLoop_cons, ih h2, updAddStep_lookup_other (fun hh => hk.1 hh.symm)]

theorem updAddStep_lookup_none {acc : PyEntries} {k : String}
    (h : alookup acc k = none) (nv0 : PyVal) :
    alookup (updAddStep acc k nv0 true) k = some (toQdict nv0) := by
  simp only [updAddStep, h, if_true]
  exact alookup_aset_self _ _ _

theorem updAddStep_lookup_qdict {acc : PyEntries} {k : String} {cvE : PyEntries}
    (h : alookup acc k = some (.dict true cvE)) (nv0 : PyVal) :
    alookup (updAddStep acc k nv0 true) k =
      some (.dict true (qdUpdateRecAdd cvE (toQdict nv0) true)) := by
  simp only [updAddStep, h, if_true]
  exact alookup_aset_self _ _ _

theorem alookup_split {s : PyEntries} {k : String} {v : PyVal}
    (h : alookup s k = some v) :
    ∃ s1 s2, s = s1 ++ (k, v) :: s2 ∧ k ∉ akeys s1 := by
  induction s with
  | nil => simp [alookup] at h
  | cons kv t ih =>
    obtain ⟨k0, v0⟩ := kv
    by_cases hk : k0 = k
    · rw [alookup, if_pos hk] at h
      cases h
      subst hk
      exact ⟨[], t, rfl, by simp [akeys]⟩
    · rw [alookup, if_neg hk] at h
      obtain ⟨s1, s2, heq, hnot⟩ := ih h
      subst heq
      refine ⟨(k0, v0) :: s1, s2, rfl, ?_⟩
      simp only [akeys, List.map_cons, List.mem_cons, not_or]
      exact ⟨fun hh => hk hh.symm, hnot⟩

/-- C7: `update(source, recursive=True, add_keys=True, convert_to_qdict=True)`
wraps each dict value of `source` as a `qdict` before merging, so a
plain-mapping value merged into a key fresh in the target appears in the
result as a `qdict`; and when the target already holds a `qdict` under the
key, the result holds the recursive additive merge of the two instead of an
overwrite. -/
theorem qdict_update_recursive_convert (d s : PyEntries) (b : Bool) (k : String)
    (hs : (akeys s).Nodup) :
    qdUpdate d (.dict b s) true true true = .ok (updAddLoop d s true) ∧
    (∀ bk m, alookup d k = none → alookup s k = some (.dict bk m) →
      alookup (updAddLoop d s true) k = some (.dict true m)) ∧
    (∀ cvE nv0, alookup d k = some (.dict true cvE) → alookup s k = some nv0 →
      alookup (updAddLoop d s true) k =
        some (.dict true (qdUpdateRecAdd cvE (toQdict nv0) true))) := by
  refine ⟨by rfl, ?_, ?_⟩
  · intro bk m hd hsk
    obtain ⟨s1, s2, heq, hnot1⟩ := alookup_split hsk
    subst heq
    have hnot2 : k ∉ akeys s2 := by
      simp only [akeys, List.map_append, List.map_cons] at hs
      exact (List.nodup_cons.mp (List.Nodup.of_append_right hs)).1
    rw [updAddLoop_append, updAddLoop_cons, updAddLoop_lookup_notin hnot2,
      updAddStep_lookup_none (by rw [updAddLoop_lookup_notin hnot1, hd])]
    rfl
  · intro cvE nv0 hd hsk
    obtain ⟨s1, s2, heq, hnot1⟩ := alookup_split hsk
    subst heq
    have hnot2 : k ∉ akeys s2 := by
      simp only [akeys, List.map_append, List.map_cons] at hs
      exact (List.nodup_cons.mp (List.Nodup.of_append_right hs)).1
    rw [updAddLoop_append, updAddLoop_cons, updAddLoop_lookup_notin hnot2,
      updAddStep_lookup_qdict (by rw [updAddLoop_lookup_notin hnot1, hd])]

/-- Witness for C7 at concrete inputs: the plain dict at fresh key `"y"` comes
out as a `qdict`, and the `qdict` at common key `"x"` comes out as the
recursive additive merge. -/
theorem qdict_update_recursive_convert_witness :
    alookup (updAddLoop [("x", PyVal.dict true [("a", PyVal.prim 1)])]
      [("x", PyVal.dict false [("b", PyVal.prim 2)]),
       ("y", PyVal.dict false [("c", PyVal.prim 3)])] true) "y" =
      some (PyVal.dict true [("c", PyVal.prim 3)]) ∧
    alookup (updAddLoop [("x", PyVal.dict true [("a", PyVal.prim 1)])]
      [("x", PyVal.dict false [("b", PyVal.prim 2)]),
       ("y", PyVal.dict false [("c", PyVal.prim 3)])] true) "x" =
      some (PyVal.dict true (qdUpdateRecAdd [("a", PyVal.prim 1)]
        (toQdict (PyVal.dict false [("b", PyVal.prim 2)])) true)) :=
  ⟨(qdict_update_recursive_convert [("x", PyVal.dict true [("a", PyVal.prim 1)])]
      [("x", PyVal.dict false [("b", PyVal.prim 2)]),
       ("y", PyVal.dict false [("c", PyVal.prim 3)])] false "y"
      (by decide)).2.1 false [("c", PyVal.prim 3)] rfl rfl,
   (qdict_update_recursive_convert [("x", PyVal.dict true [("a", PyVal.prim 1)])]
      [("x", PyVal.dict false [("b", PyVal.prim 2)]),
       ("y", PyVal.dict false [("c", PyVal.prim 3)])] false "x"
      (by decide)).2.2 [("a", PyVal.prim 1)]
      (PyVal.dict false [("b", PyVal.prim 2)]) rfl rfl⟩

/-- C5 evidence: calling `get_pretty_fields()` on a class with neither
`__pretty_fields__` nor `__slots__` stores the `False` marker and then raises
`TypeError` by iterating over `None` — the claimed "represent no fields
rather than failing" behaviour does not happen (the assignment of the
disabled marker is dead code, overwritten before any return). -/
theorem get_pretty_fields_none_raises :
    get_pretty_fields PFCache.absent none none =
      (.error "TypeError: NoneType object is not iterable", PFCache.boolFalse) :=
  rfl

theorem string_mk_toList (s : String) : String.mk s.toList = s := rfl

theorem toList_append (a b : String) :
    (a ++ b).toList = a.toList ++ b.toList :=
  String.data_append a b

theorem toList_eq_obrace : ("=\x7b" : String).toList = ['=', obrace] := rfl

theorem toList_cbrace_str : ("\x7d" : String).toList = [cbrace] := rfl

theorem toList_comma_space : (", " : String).toList = [',', ' '] := rfl

theorem simpleFieldName_chars {n : String} (h : simpleFieldName n = true) :
    ∀ c ∈ n.toList, c ≠ obrace ∧ c ≠ cbrace := by
  intro c hc
  have h2 := List.all_eq_true.mp h c hc
  simp only [Bool.and_eq_true, bne_iff_ne, ne_eq] at h2
  exact ⟨h2.1.1.1.1.1, h2.1.1.1.1.2⟩

theorem pyFormatAux_nil (ctx : String → Option String) :
    pyFormatAux ctx [] = .ok [] := by
  simp [pyFormatAux]

theorem pyFormatAux_cons_plain (ctx : String → Option String) {c : Char}
    (h1 : c ≠ obrace) (h2 : c ≠ cbrace) (t : List Char) :
    pyFormatAux ctx (c :: t) =
      match pyFormatAux ctx t with
      | .error e => .error e
      | .ok out => .ok (c :: out) := by
  rw [pyFormatAux]
  rw [if_neg h1, if_neg h2]

theorem pyFormatAux_chunk (ctx : String → Option String) (a r : List Char)
    (ha : ∀ c ∈ a, c ≠ obrace ∧ c ≠ cbrace) :
    pyFormatAux ctx (a ++ r) =
      match pyFormatAux ctx r with
      | .error e => .error e
      | .ok out => .ok (a ++ out) := by
  induction a with
  | nil =>
    simp only [List.nil_append]
    cases pyFormatAux ctx r <;> rfl
  | cons c t ih =>
    have hc := ha c (List.mem_cons_self c t)
    rw [List.cons_append, pyFormatAux_cons_plain ctx hc.1 hc.2,
      ih (fun x hx => ha x (List.mem_cons_of_mem c hx))]
    cases pyFormatAux ctx r <;> rfl

theorem splitAtBrace_exact (name r : List Char)
    (h : ∀ c ∈ name, c ≠ cbrace) :
    splitAtBrace (name ++ cbrace :: r) = some (name, r) := by
  induction name with
  | nil => simp [splitAtBrace]
  | cons c t ih =>
    rw [List.cons_append, splitAtBrace]
    rw [if_neg (h c (List.mem_cons_self c t))]
    rw [ih (fun x hx => h x (List.mem_cons_of_mem c hx))]
    rfl

theorem pyFormatAux_placeholder (ctx : String → Option String) (name v : String)
    (r : List Char)
    (hname : ∀ c ∈ name.toList, c ≠ obrace ∧ c ≠ cbrace)
    (hctx : ctx name = some v) :
    pyFormatAux ctx (obrace :: (name.toList ++ cbrace :: r)) =
      match pyFormatAux ctx r with
      | .error e => .error e
      | .ok out => .ok (v.toList ++ out) := by
  have hhead : ¬ (name.toList ++ cbrace :: r).head? = some obrace := by
    cases hl : name.toList with
    | nil =>
      rw [List.nil_append]
      intro hcontra
      simp only [List.head?_cons, Option.some.injEq] at hcontra
      exact (by decide : ¬ cbrace = obrace) hcontra
    | cons c t =>
      rw [List.cons_append]
      intro hcontra
      simp only [List.head?_cons, Option.some.injEq] at hcontra
      exact (hname c (by rw [hl]; exact List.mem_cons_self c t)).1 hcontra
  rw [pyFormatAux]
  rw [if_pos rfl, if_neg hhead]
  rw [splitAtBrace_exact name.toList r (fun c hc => (hname c hc).2)]
  simp only [string_mk_toList, hctx]

theorem pyFormatAux_piece (access : String → FieldOutcome) (allf : List String)
    (n : String) (hmem : n ∈ allf) (hsf : simpleFieldName n = true)
    (r : List Char) :
    pyFormatAux (reprContext allf access)
        ((n ++ "=\x7b" ++ n ++ "\x7d").toList ++ r) =
      match pyFormatAux (reprContext allf access) r with
      | .error e => .error e
      | .ok out => .ok ((n ++ "=" ++ fieldDisplay access n).toList ++ out) := by
  have hch := simpleFieldName_chars hsf
  have hctx : reprContext allf access n = some (fieldDisplay access n) := by
    simp [reprContext, hmem]
  have hdecomp : (n ++ "=\x7b" ++ n ++ "\x7d").toList ++ r =
      (n.toList ++ ['=']) ++ (obrace :: (n.toList ++ cbrace :: r)) := by
    simp [toList_append, toList_eq_obrace, toList_cbrace_str, obrace, cbrace]
  rw [hdecomp,
    pyFormatAux_chunk _ _ _ (by
      intro c hc
      rcases List.mem_append.mp hc with hc1 | hc2
      · exact hch c hc1
      · simp only [List.mem_singleton] at hc2
        subst hc2
        exact ⟨by decide, by decide⟩),
    pyFormatAux_placeholder _ n _ r hch hctx]
  cases pyFormatAux (reprContext allf access) r <;>
    simp [toList_append]

theorem pyFormatAux_gpf (access : String → FieldOutcome) (allf : List String)
    (fields : List String) (hsub : ∀ n ∈ fields, n ∈ allf)
    (hn : ∀ n ∈ fields, simpleFieldName n = true) :
    pyFormatAux (reprContext allf access) (gpfTemplate fields).toList =
      .ok (pyJoin ", " (fields.map fun n =>
        n ++ "=" ++ fieldDisplay access n)).toList := by
  induction fields with
  | nil =>
    rw [show (gpfTemplate []).toList = ([] : List Char) from rfl, pyFormatAux_nil]
    rfl
  | cons n rest ih =>
    cases rest with
    | nil =>
      have hp := pyFormatAux_piece access allf n (hsub n (by simp))
        (hn n (by simp)) []
      rw [List.append_nil] at hp
      rw [show gpfTemplate [n] = n ++ "=\x7b" ++ n ++ "\x7d" from rfl, hp,
        pyFormatAux_nil]
      simp [pyJoin]
    | cons m t =>
      have hd : (gpfTemplate (n :: m :: t)).toList =
          (n ++ "=\x7b" ++ n ++ "\x7d").toList ++
            ([',', ' '] ++ (gpfTemplate (m :: t)).toList) := by
        rw [show gpfTemplate (n :: m :: t) =
          (n ++ "=\x7b" ++ n ++ "\x7d") ++ ", " ++ gpfTemplate (m :: t) from rfl]
        simp [toList_append, toList_comma_space]
      rw [hd, pyFormatAux_piece access allf n (hsub n (by simp)) (hn n (by simp)),
        pyFormatAux_chunk _ [',', ' '] _ (by decide),
        ih (fun x hx => hsub x (List.mem_cons_of_mem n hx))
          (fun x hx => hn x (List.mem_cons_of_mem n hx))]
      rw [show pyJoin ", " ((n :: m :: t).map fun x =>
          x ++ "=" ++ fieldDisplay access x) =
        (n ++ "=" ++ fieldDisplay access n) ++ ", " ++
          pyJoin ", " ((m :: t).map fun x =>
            x ++ "=" ++ fieldDisplay access x) from rfl]
      simp [toList_append, toList_comma_space]

theorem pyFormat_gpf (access : String → FieldOutcome) (fs : List String)
    (hn : ∀ n ∈ fs, simpleFieldName n = true) :
    pyFormat (gpfTemplate fs) (reprContext fs access) =
      .ok (pyJoin ", " (fs.map fun n => n ++ "=" ++ fieldDisplay access n)) := by
  rw [pyFormat, pyFormatAux_gpf access fs fs (fun _ h => h) hn]
  rfl

theorem gpf_eval (pfields slots : Option (List String)) (fs : List String)
    (hdisc : (match pfields with | some l => some l | none => slots) = some fs)
    (hne : fs ≠ []) (cache : PFCache)
    (hcache : cache = PFCache.absent ∨ cache = PFCache.str (gpfTemplate fs)) :
    (get_pretty_fields cache pfields slots).1 = .ok (gpfTemplate fs) := by
  have hrec : gpfRecompute pfields slots =
      (.ok (gpfTemplate fs), .str (gpfTemplate fs)) := by
    rw [gpfRecompute]
    cases hp : pfields with
    | some l =>
      have hl : l = fs := by
        rw [hp] at hdisc
        exact Option.some.inj hdisc
      subst hl
      have hne2 : optFieldsTruthy (some l) = true := by
        cases l with
        | nil => exact absurd rfl hne
        | cons x xs => rfl
      simp [hne2]
    | none =>
      have hs : slots = some fs := by rw [hp] at hdisc; exact hdisc
      simp [optFieldsTruthy, hs]
  rcases hcache with hc | hc <;> subst hc
  · simp [get_pretty_fields, hrec]
  · rw [get_pretty_fields]
    by_cases he : (gpfTemplate fs).isEmpty
    · simp [he, hrec]
    · simp [he]

/-- C4: on an instance whose class has a discoverable field list (and whose
class-level template cache is in a reachable state), `__repr__` returns
normally — never raising — with every declared field independently rendered:
the field's `repr` string when access succeeds, the caught exception object
when access raises, and the `??` placeholder when the field is absent.  The
`simpleFieldName` hypothesis restricts field names to ones without format
metacharacters (every Python identifier qualifies). -/
theorem prettyobject_repr_fields (base : String) (cache : PFCache)
    (pfields slots : Option (List String)) (access : String → FieldOutcome)
    (fs : List String)
    (hdisc : (match pfields with | some l => some l | none => slots) = some fs)
    (hne : fs ≠ [])
    (hn : ∀ n ∈ fs, simpleFieldName n = true)
    (hcache : cache = PFCache.absent ∨ cache = PFCache.str (gpfTemplate fs)) :
    PrettyObject_repr base cache pfields slots access =
      .ok (base.dropRight 1 ++ " " ++
        pyJoin ", " (fs.map fun n => n ++ "=" ++ fieldDisplay access n) ++ ">") := by
  have hemp : fs.isEmpty = false := by
    cases fs with
    | nil => exact absurd rfl hne
    | cons x xs => rfl
  rw [PrettyObject_repr.eq_def, hdisc]
  simp only [hemp, Bool.false_eq_true, if_false]
  rw [gpf_eval pfields slots fs hdisc hne cache hcache]
  show (match pyFormat (gpfTemplate fs) (reprContext fs access) with
      | Except.error e => Except.error e
      | Except.ok formatted =>
        Except.ok (base.dropRight 1 ++ " " ++ formatted ++ ">")) = _
  rw [pyFormat_gpf access fs hn]

/-- Witness for C4 at concrete inputs: fields `["a", "b"]` with `a` reading as
`1` and `b` absent produce exactly `<A object at 0x1 a=1, b=??>`. -/
theorem prettyobject_repr_fields_witness :
    PrettyObject_repr "<A object at 0x1>" PFCache.absent (some ["a", "b"]) none
        (fun n => if n = "a" then FieldOutcome.ok "1" else FieldOutcome.absent) =
      .ok "<A object at 0x1 a=1, b=??>" := by
  rw [prettyobject_repr_fields "<A object at 0x1>" PFCache.absent
    (some ["a", "b"]) none
    (fun n => if n = "a" then FieldOutcome.ok "1" else FieldOutcome.absent)
    ["a", "b"] rfl (by decide) (by decide) (Or.inl rfl)]
  rfl

end Sutils

